import Mathlib

/-!
Verification of the block / topology / training-loop core of the
`residual-connections` notebook.

Value-level embedding: a feature map is a total function
`channel → row → col → ℚ` (entries outside the actual extent are junk and
never read by downstream layers, which are always told the extent of their
input, exactly as the tensor library tracks shapes at run time).  The
convolution is the notebook's `nn.Conv2d` (cross-correlation with zero
padding and bias); batch normalization is affine in its learnable scale and
shift around an abstract normalization core (the core — batch statistics,
running estimates, epsilon — belongs to the external framework and is
carried as an opaque function field); `nn.ReLU` is the pointwise positive
part.  Shape-level embedding: a separate `Option`-valued shape calculus for
the same layers, used for the shape-safety claims.
-/

/-- A feature map: channel, row, column to value. -/
abbrev Tensor : Type := ℕ → ℕ → ℕ → ℚ

/-- Pointwise tensor addition (`x + y` on same-shape tensors). -/
def tadd (x y : Tensor) : Tensor := fun c i j => x c i j + y c i j

/-- `nn.ReLU`: pointwise positive part. -/
def reluT (x : Tensor) : Tensor := fun c i j => max 0 (x c i j)

/-- Reading a zero-padded plane: the plane `x` has extent `h × w` and is
surrounded by a border of `p` zeros. -/
def padRead (p h w : ℕ) (x : ℕ → ℕ → ℚ) (i j : ℕ) : ℚ :=
  if p ≤ i ∧ i < h + p ∧ p ≤ j ∧ j < w + p then x (i - p) (j - p) else 0

/-- `nn.Conv2d(cin, cout, fs, padding := p)` applied to an input of extent
`h × w`: bias plus the windowed weighted sum over input channels and the
`fs × fs` kernel.  The output extent is `(h + 2p + 1 - fs) × (w + 2p + 1 - fs)`. -/
def conv2d (cin fs p h w : ℕ) (wgt : ℕ → ℕ → ℕ → ℕ → ℚ) (bias : ℕ → ℚ)
    (x : Tensor) : Tensor :=
  fun co oi oj =>
    bias co + ∑ ci ∈ Finset.range cin, ∑ ki ∈ Finset.range fs, ∑ kj ∈ Finset.range fs,
      wgt co ci ki kj * padRead p h w (x ci) (oi + ki) (oj + kj)

/-- `nn.BatchNorm2d`: learnable per-channel scale `gamma` and shift `beta`
around the framework's normalization core (batch or running statistics). -/
def batchNorm2d (gamma beta : ℕ → ℚ) (core : Tensor → Tensor) (x : Tensor) : Tensor :=
  fun c i j => gamma c * core x c i j + beta c

/-- The parameters owned by one `Block`: convolution weight and bias, batch
norm scale and shift (the learnable parameters), plus the batch norm's
normalization core, which belongs to the external framework. -/
structure Weights where
  convW : ℕ → ℕ → ℕ → ℕ → ℚ
  convB : ℕ → ℚ
  normW : ℕ → ℚ
  normB : ℕ → ℚ
  normCore : Tensor → Tensor

/-- All learnable parameters of a `Weights` record are zero (the
normalization core is not learnable and is unconstrained). -/
def Weights.allZero (θ : Weights) : Prop :=
  (∀ a b c d, θ.convW a b c d = 0) ∧ (∀ a, θ.convB a = 0) ∧
    (∀ a, θ.normW a = 0) ∧ (∀ a, θ.normB a = 0)

/-- The notebook's `Block(c_in, c_out, fs, p, rl)`: conv → batch norm →
optional ReLU. -/
structure Block where
  c_in : ℕ
  c_out : ℕ
  fs : ℕ
  p : ℕ
  rl : Bool
  w : Weights

/-- `Block.__init__(c_in, c_out, fs, p=0, rl=True)` with the learnable
state `θ` supplied by initialization. -/
def mkBlock (c_in c_out fs p : ℕ) (rl : Bool) (θ : Weights) : Block :=
  { c_in := c_in, c_out := c_out, fs := fs, p := p, rl := rl, w := θ }

/-- Spatial extent of a `Block`'s output given the input extent. -/
def Block.outD (B : Block) (h : ℕ) : ℕ := h + 2 * B.p + 1 - B.fs

/-- `Block.forward`:
`self.relu(self.norm(self.conv(x))) if self.rl else self.norm(self.conv(x))`,
on an input of extent `h × w`. -/
def Block.forward (B : Block) (h w : ℕ) (x : Tensor) : Tensor :=
  let c := conv2d B.c_in B.fs B.p h w B.w.convW B.w.convB x
  let n := batchNorm2d B.w.normW B.w.normB B.w.normCore c
  if B.rl then reluT n else n

/-- The notebook's `ResBlock(nc, fs)`: two Blocks `a` (with ReLU) and `b`
(ReLU disabled), both with padding 1. -/
structure ResBlock where
  nc : ℕ
  fs : ℕ
  a : Block
  b : Block

/-- `ResBlock.__init__`: `a = Block(nc, nc, fs, p=1)`,
`b = Block(nc, nc, fs, rl=None, p=1)`. -/
def mkResBlock (nc fs : ℕ) (θa θb : Weights) : ResBlock :=
  { nc := nc, fs := fs, a := mkBlock nc nc fs 1 true θa, b := mkBlock nc nc fs 1 false θb }

/-- `ResBlock.forward`: `y = self.a(self.b(x)); return self.relu(x + y)` —
note `b` (the activation-disabled Block) runs first, `a` second. -/
def ResBlock.forward (R : ResBlock) (h w : ℕ) (x : Tensor) : Tensor :=
  let y := R.a.forward (R.b.outD h) (R.b.outD w) (R.b.forward h w x)
  reluT (tadd x y)

/-- The notebook's `AltBlock(nc, fs1, fs2)`: chained pair `a` (ReLU) and `b`
(no ReLU) of kernel `fs1`, and a parallel single Block `c` (no ReLU) of
kernel `fs2`; all three with the default padding 0. -/
structure AltBlock where
  nc : ℕ
  fs1 : ℕ
  fs2 : ℕ
  a : Block
  b : Block
  c : Block

/-- `AltBlock.__init__`: `a = Block(nc, nc, fs1)`,
`b = Block(nc, nc, fs1, rl=None)`, `c = Block(nc, nc, fs2, rl=None)`. -/
def mkAltBlock (nc fs1 fs2 : ℕ) (θa θb θc : Weights) : AltBlock :=
  { nc := nc, fs1 := fs1, fs2 := fs2,
    a := mkBlock nc nc fs1 0 true θa,
    b := mkBlock nc nc fs1 0 false θb,
    c := mkBlock nc nc fs2 0 false θc }

/-- `AltBlock.forward`:
`y = self.a(self.b(x)); z = self.c(x); return self.relu(y + z)`. -/
def AltBlock.forward (A : AltBlock) (h w : ℕ) (x : Tensor) : Tensor :=
  let y := A.a.forward (A.b.outD h) (A.b.outD w) (A.b.forward h w x)
  let z := A.c.forward h w x
  reluT (tadd y z)

/-- `AltBlock.forward` with the two paths computed in the other order: the
single-Block path `z` first, the chained path `y` second, summed as `z + y`. -/
def AltBlock.forwardSwapped (A : AltBlock) (h w : ℕ) (x : Tensor) : Tensor :=
  let z := A.c.forward h w x
  let y := A.a.forward (A.b.outD h) (A.b.outD w) (A.b.forward h w x)
  reluT (tadd z y)

/-- Follows the words of the spec for the residual unit (not the code): the
two ConvUnits applied in sequence with the second-applied one having
activation disabled, i.e. `a` (ReLU) first and `b` (no ReLU) second. -/
def ResBlock.specForward (R : ResBlock) (h w : ℕ) (x : Tensor) : Tensor :=
  let y := R.b.forward (R.a.outD h) (R.a.outD w) (R.a.forward h w x)
  reluT (tadd x y)

/-- Follows the words of the spec for the branch unit (not the code): path A
applies the chained pair with the second-applied ConvUnit activation-disabled,
i.e. `a` (ReLU) first and `b` (no ReLU) second; path B and the rest as in the
code. -/
def AltBlock.specForward (A : AltBlock) (h w : ℕ) (x : Tensor) : Tensor :=
  let y := A.b.forward (A.a.outD h) (A.a.outD w) (A.a.forward h w x)
  let z := A.c.forward h w x
  reluT (tadd y z)

/-!
Training / evaluation loop embedding (`train_loop`).

The model, the autograd engine and the Adam optimizer are external
collaborators of the loop; they are carried as opaque fields of an
environment record.  Gradients accumulate (`loss.backward()` adds the new
gradient onto the buffer), which is why `optimizer.zero_grad()` matters and
is modelled as resetting the buffer to `gzero`.  A batch is the
data-loader's list of (image, integer-label) examples; a model forward pass
maps the batch's images to one row of class scores per example.
-/

/-- One example's row of class scores (indices beyond the class count are
junk, as in the value-level `Tensor`). -/
abbrev Scores : Type := ℕ → ℚ

/-- One data-loader batch: a list of (image, integer label) examples. -/
abbrev Batch (Img : Type) : Type := List (Img × ℕ)

/-- The external collaborators of `train_loop`: the model in train and in
eval mode, the autograd engine, the gradient buffer monoid, the optimizer
update and the framework's scalar exponential (used by `nn.Softmax`). -/
structure Env (P G Img : Type) where
  numClasses : ℕ
  forwardTrain : P → List Img → List Scores
  forwardEval : P → List Img → List Scores
  gradOf : P → List Img → List ℕ → G
  gzero : G
  gadd : G → G → G
  optStep : P → G → P
  e : ℚ → ℚ

/-- Mutable state owned by the loop: the model parameters and the shared
gradient buffer. -/
structure OptimState (P G : Type) where
  params : P
  grads : G

/-- `nn.Softmax(-1)` on a row of `Cn` class scores, with `e` the framework's
exponential. -/
def softmax (Cn : ℕ) (e : ℚ → ℚ) (v : Scores) : Scores :=
  fun i => e (v i) / ∑ j ∈ Finset.range Cn, e (v j)

/-- Index of the first maximum of `v` among indices `0, …, n-1` (what
`tensor.max(-1)` returns as its index component); `0` when `n = 0`. -/
def argmaxIdx (v : Scores) : ℕ → ℕ
  | 0 => 0
  | n + 1 =>
      let b := argmaxIdx v n
      if v b < v n then n else b

/-- The loop's per-example prediction:
`_, pred = nn.Softmax(-1)(out).max(-1)`. -/
def predOf (Cn : ℕ) (e : ℚ → ℚ) (out : Scores) : ℕ :=
  argmaxIdx (softmax Cn e out) Cn

/-- `nn.CrossEntropyLoss()` (mean reduction): minus `logf` of the softmax
probability of the true class, averaged over the batch; `e` and `logf` model
the framework's exponential and logarithm. -/
def crossEntropyLoss (Cn : ℕ) (e logf : ℚ → ℚ) (outs : List Scores) (labs : List ℕ) : ℚ :=
  (((outs.zip labs).map (fun ol => -(logf (softmax Cn e ol.1 ol.2)))).sum)
    / ((outs.zip labs).length : ℚ)

/-- The body of the training loop for one batch, line by line:
`optimizer.zero_grad()`; `out = model(img)`; `loss = criterion(out, lab)`;
`loss.backward()` (accumulates the batch gradient onto the buffer);
`optimizer.step()`; returns the new state and `loss.item()`. -/
def trainBatch (E : Env P G Img) (criterion : List Scores → List ℕ → ℚ)
    (s : OptimState P G) (b : Batch Img) : OptimState P G × ℚ :=
  let imgs := b.map Prod.fst
  let labs := b.map Prod.snd
  let s1 : OptimState P G := { params := s.params, grads := E.gzero }
  let out := E.forwardTrain s1.params imgs
  let loss := criterion out labs
  let s2 : OptimState P G := { params := s1.params,
                               grads := E.gadd s1.grads (E.gradOf s1.params imgs labs) }
  let s3 : OptimState P G := { params := E.optStep s2.params s2.grads, grads := s2.grads }
  (s3, loss)

/-- The training phase: `for img, lab in trainloader: …; current += loss.item()`,
starting from accumulated loss `current`. -/
def trainPhase (E : Env P G Img) (criterion : List Scores → List ℕ → ℚ) :
    OptimState P G → ℚ → List (Batch Img) → OptimState P G × ℚ
  | s, current, [] => (s, current)
  | s, current, b :: bs =>
      let r := trainBatch E criterion s b
      trainPhase E criterion r.1 (current + r.2) bs

/-- Number of examples in a batch for which the predicted class index equals
the integer label: `(pred == lab).sum().item()`. -/
def correctInBatch (Cn : ℕ) (e : ℚ → ℚ) (outs : List Scores) (labs : List ℕ) : ℕ :=
  ((outs.zip labs).filter (fun ol => decide (predOf Cn e ol.1 = ol.2))).length

/-- The evaluation phase: accumulates the loss and the number of correct
top-1 predictions over the validation batches. -/
def evalPhase (E : Env P G Img) (criterion : List Scores → List ℕ → ℚ) (p : P) :
    ℚ → ℕ → List (Batch Img) → ℚ × ℕ
  | current, acc, [] => (current, acc)
  | current, acc, b :: bs =>
      let imgs := b.map Prod.fst
      let labs := b.map Prod.snd
      let out := E.forwardEval p imgs
      let loss := criterion out labs
      evalPhase E criterion p (current + loss)
        (acc + correctInBatch E.numClasses E.e out labs) bs

/-- `len(testset)`: the total number of validation examples, i.e. the sum of
the loader's batch sizes (the loader partitions the dataset). -/
def testsetSize (testloader : List (Batch Img)) : ℕ :=
  (testloader.map List.length).sum

/-- One epoch of `train_loop`: the training phase over `trainloader`, then
`train_loss = current / len(trainloader)`; the evaluation phase over
`testloader` with the updated parameters, then
`valid_loss = current / len(testloader)` and
`accuracy = 100 * acc / len(testset)`.  Returns the new state and the
recorded metrics row `(train_loss, valid_loss, accuracy)`. -/
def epoch (E : Env P G Img) (criterion : List Scores → List ℕ → ℚ)
    (trainloader testloader : List (Batch Img)) (s : OptimState P G) :
    OptimState P G × (ℚ × ℚ × ℚ) :=
  let tr := trainPhase E criterion s 0 trainloader
  let train_loss := tr.2 / (trainloader.length : ℚ)
  let ev := evalPhase E criterion tr.1.params 0 0 testloader
  let valid_loss := ev.1 / (testloader.length : ℚ)
  let accuracy := 100 * (ev.2 : ℚ) / (testsetSize testloader : ℚ)
  (tr.1, (train_loss, valid_loss, accuracy))

/-- `train_loop(model, optimizer, criterion, epochs)`: runs `epochs` epochs
and returns the metrics rows in order of recording. -/
def train_loop (E : Env P G Img) (criterion : List Scores → List ℕ → ℚ)
    (trainloader testloader : List (Batch Img)) :
    OptimState P G → ℕ → List (ℚ × ℚ × ℚ)
  | _, 0 => []
  | s, n + 1 =>
      let r := epoch E criterion trainloader testloader s
      r.2 :: train_loop E criterion trainloader testloader r.1 n

/-- The per-batch losses recorded by the training phase, in batch order,
each computed from the parameters as updated by the preceding batches. -/
def lossTrajectory (E : Env P G Img) (criterion : List Scores → List ℕ → ℚ) :
    OptimState P G → List (Batch Img) → List ℚ
  | _, [] => []
  | s, b :: bs =>
      (trainBatch E criterion s b).2 ::
        lossTrajectory E criterion (trainBatch E criterion s b).1 bs

/-- Total number of validation examples whose top-1 prediction under
parameters `p` equals their label, summed over the loader's batches. -/
def correctTotal (E : Env P G Img) (p : P) (testloader : List (Batch Img)) : ℕ :=
  (testloader.map (fun b =>
    correctInBatch E.numClasses E.e (E.forwardEval p (b.map Prod.fst))
      (b.map Prod.snd))).sum

/-!
Shape-level embedding: each layer as a partial function on shapes
`[batch, channels, height, width]` (a linear layer produces `[batch, features]`),
`none` meaning the tensor library raises a shape error.
-/

/-- Shape of `nn.Conv2d(cin, cout, fs, padding := p)`: requires the channel
count to match and the padded extent to be at least the kernel size. -/
def conv2dShape (cin cout fs p : ℕ) : List ℕ → Option (List ℕ)
  | [n, c, h, w] =>
      if c = cin ∧ fs ≤ h + 2 * p ∧ fs ≤ w + 2 * p then
        some [n, cout, h + 2 * p + 1 - fs, w + 2 * p + 1 - fs]
      else none
  | _ => none

/-- Shape of `nn.BatchNorm2d(nf)`: requires `nf` channels, preserves the shape. -/
def batchNorm2dShape (nf : ℕ) : List ℕ → Option (List ℕ)
  | [n, c, h, w] => if c = nf then some [n, c, h, w] else none
  | _ => none

/-- Shape of `Block(cin, cout, fs, p)`: its convolution followed by its
batch norm (`nn.ReLU` preserves any shape). -/
def blockShape (cin cout fs p : ℕ) (s : List ℕ) : Option (List ℕ) :=
  (conv2dShape cin cout fs p s).bind (batchNorm2dShape cout)

/-- Shape of an element-wise sum: defined only when both shapes agree. -/
def addShape (s1 s2 : List ℕ) : Option (List ℕ) :=
  if s1 = s2 then some s1 else none

/-- Shape of `AltBlock(nc, fs1, fs2)`: path A is the chained pair of
kernel-`fs1` Blocks, path B the single kernel-`fs2` Block, then the sum of
the two paths (all paddings 0, as in `AltBlock.__init__`). -/
def altBlockShape (nc fs1 fs2 : ℕ) (s : List ℕ) : Option (List ℕ) :=
  ((blockShape nc nc fs1 0 s).bind (blockShape nc nc fs1 0)).bind (fun y =>
    (blockShape nc nc fs2 0 s).bind (fun z => addShape y z))

/-- Shape of `nn.AdaptiveAvgPool2d(1)`: requires nonempty spatial extent,
produces `1 × 1`. -/
def adaptiveAvgPool2dShape : List ℕ → Option (List ℕ)
  | [n, c, h, w] => if 1 ≤ h ∧ 1 ≤ w then some [n, c, 1, 1] else none
  | _ => none

/-- Shape of `nn.Flatten()` (start dimension 1). -/
def flattenShape : List ℕ → Option (List ℕ)
  | [n, c, h, w] => some [n, c * h * w]
  | _ => none

/-- Shape of `nn.Linear(fIn, fOut)` on a `[batch, features]` input. -/
def linearShape (fIn fOut : ℕ) : List ℕ → Option (List ℕ)
  | [n, f] => if f = fIn then some [n, fOut] else none
  | _ => none

/-- Shape of the notebook's `net0` (`nn.Sequential` of ten Blocks, adaptive
average pooling, flatten and a `Linear(64, 10)` head), layer by layer. -/
def net0Shape (s : List ℕ) : Option (List ℕ) :=
  (blockShape 3 6 5 0 s).bind fun s1 =>
  (blockShape 6 16 3 0 s1).bind fun s2 =>
  (blockShape 16 16 3 0 s2).bind fun s3 =>
  (blockShape 16 16 3 0 s3).bind fun s4 =>
  (blockShape 16 32 3 0 s4).bind fun s5 =>
  (blockShape 32 32 3 0 s5).bind fun s6 =>
  (blockShape 32 32 3 0 s6).bind fun s7 =>
  (blockShape 32 64 3 0 s7).bind fun s8 =>
  (blockShape 64 64 3 0 s8).bind fun s9 =>
  (blockShape 64 64 3 0 s9).bind fun s10 =>
  (adaptiveAvgPool2dShape s10).bind fun s11 =>
  (flattenShape s11).bind (linearShape 64 10)

/-!
Concrete parameter records used by witnesses and counterexamples.
-/

/-- Weights with every learnable parameter zero and identity core. -/
def wZero : Weights :=
  { convW := fun _ _ _ _ => 0, convB := fun _ => 0, normW := fun _ => 0,
    normB := fun _ => 0, normCore := fun t => t }

/-- Weights with unit kernel, bias `-1`, identity batch norm. -/
def wCa : Weights :=
  { convW := fun _ _ _ _ => 1, convB := fun _ => -1, normW := fun _ => 1,
    normB := fun _ => 0, normCore := fun t => t }

/-- Weights with unit kernel, bias `1`, identity batch norm. -/
def wCb : Weights :=
  { convW := fun _ _ _ _ => 1, convB := fun _ => 1, normW := fun _ => 1,
    normB := fun _ => 0, normCore := fun t => t }

/-- The all-zero input tensor. -/
def xZero : Tensor := fun _ _ _ => 0

/-- The all-one input tensor. -/
def xOne : Tensor := fun _ _ _ => 1

/-- A trivial concrete environment over unit parameter, gradient and image
types (two classes, constant scores, constant exponential), used to
instantiate theorems with hypotheses at concrete inputs. -/
def env0 : Env Unit Unit Unit :=
  { numClasses := 2
    forwardTrain := fun _ imgs => imgs.map (fun _ => fun _ => 0)
    forwardEval := fun _ imgs => imgs.map (fun _ => fun _ => 0)
    gradOf := fun _ _ _ => ()
    gzero := ()
    gadd := fun _ _ => ()
    optStep := fun p _ => p
    e := fun _ => 1 }

/-- A one-batch loader holding a single example with label 0. -/
def ldr0 : List (Batch Unit) := [[((), 0)]]

/-- An initial optimizer state over unit types. -/
def st0 : OptimState Unit Unit := { params := (), grads := () }

/-- A concrete score row used by witnesses. -/
def row0 : Scores := fun i => (i : ℚ)

/-- Claim C3: a ConvUnit built as `Block(c_in, c_out, fs, p, rl)` outputs
`relu(norm(conv(x)))` when the activation flag is set, and exactly the
normalized output `norm(conv(x))` when it is not. -/
theorem block_forward_spec (c_in c_out fs p : ℕ) (rl : Bool) (θ : Weights)
    (h w : ℕ) (x : Tensor) :
    (rl = true →
      (mkBlock c_in c_out fs p rl θ).forward h w x
        = reluT (batchNorm2d θ.normW θ.normB θ.normCore
            (conv2d c_in fs p h w θ.convW θ.convB x))) ∧
    (rl = false →
      (mkBlock c_in c_out fs p rl θ).forward h w x
        = batchNorm2d θ.normW θ.normB θ.normCore
            (conv2d c_in fs p h w θ.convW θ.convB x)) := by
  constructor <;> intro hrl <;> subst hrl <;> rfl

/-- Witness for C3 at a concrete activation-enabled Block and input. -/
theorem block_forward_spec_witness :
    (mkBlock 1 1 1 0 true wCb).forward 1 1 xOne
      = reluT (batchNorm2d wCb.normW wCb.normB wCb.normCore
          (conv2d 1 1 0 1 1 wCb.convW wCb.convB xOne)) :=
  (block_forward_spec 1 1 1 0 true wCb 1 1 xOne).1 rfl

/-- Claim C8: computing path B (the single wider-kernel Block) before
path A (the chained pair) in `AltBlock.forward` yields the same output,
because the element-wise sum of the two paths is commutative. -/
theorem altblock_swap_paths (A : AltBlock) (h w : ℕ) (x : Tensor) :
    A.forwardSwapped h w x = A.forward h w x := by
  funext c i j
  simp only [AltBlock.forward, AltBlock.forwardSwapped, reluT, tadd]
  rw [add_comm]

/-- Claim C9: a `ResBlock` whose two internal Blocks have all learnable
parameters (convolution and normalization) zero maps every input `x` to
`relu(x)`: the residual branch contributes nothing. -/
theorem resblock_zero_is_relu (nc fs h w : ℕ) (θa θb : Weights) (x : Tensor)
    (ha : θa.allZero) (hb : θb.allZero) :
    (mkResBlock nc fs θa θb).forward h w x = reluT x := by
  obtain ⟨haW, haB, haG, haD⟩ := ha
  obtain ⟨hbW, hbB, hbG, hbD⟩ := hb
  funext c i j
  simp [ResBlock.forward, mkResBlock, mkBlock, Block.forward, reluT, tadd,
    batchNorm2d, haG, haD]

/-- Witness for C9 at a concrete zero-parameter `ResBlock` and input. -/
theorem resblock_zero_is_relu_witness :
    (mkResBlock 1 1 wZero wZero).forward 1 1 xOne = reluT xOne :=
  resblock_zero_is_relu 1 1 1 1 wZero wZero xOne
    ⟨fun _ _ _ _ => rfl, fun _ => rfl, fun _ => rfl, fun _ => rfl⟩
    ⟨fun _ _ _ _ => rfl, fun _ => rfl, fun _ => rfl, fun _ => rfl⟩

/-- Counterexample to C1 as stated: at a concrete `ResBlock` and input, the
code's output (activation-disabled Block applied first) differs from the
claimed output (activation-disabled Block applied second). -/
theorem resblock_spec_order_false :
    ¬ ((mkResBlock 1 1 wCa wCb).specForward 1 1 xZero
        = (mkResBlock 1 1 wCa wCb).forward 1 1 xZero) := by
  intro hEq
  have h2 : (mkResBlock 1 1 wCa wCb).specForward 1 1 xZero 0 2 2
      = (mkResBlock 1 1 wCa wCb).forward 1 1 xZero 0 2 2 :=
    congrFun (congrFun (congrFun hEq 0) 2) 2
  norm_num [mkResBlock, mkBlock, ResBlock.specForward, ResBlock.forward, Block.forward,
    Block.outD, conv2d, batchNorm2d, reluT, tadd, padRead, xZero, wCa, wCb,
    Finset.sum_range_one, max_def, Finset.filter_singleton] at h2

/-- Claim C1 (amended): `ResBlock.forward` applies the two internal Blocks
in sequence with the FIRST-applied Block `b` having activation disabled and
the second-applied Block `a` having activation enabled, adds the result to
the input, and applies ReLU: `output = relu(x + a(b(x)))`. -/
theorem resblock_forward_spec (nc fs : ℕ) (θa θb : Weights) (h w : ℕ) (x : Tensor) :
    (mkResBlock nc fs θa θb).forward h w x
      = reluT (tadd x
          ((mkBlock nc nc fs 1 true θa).forward
            ((mkBlock nc nc fs 1 false θb).outD h)
            ((mkBlock nc nc fs 1 false θb).outD w)
            ((mkBlock nc nc fs 1 false θb).forward h w x)))
    ∧ (mkResBlock nc fs θa θb).a.rl = true
    ∧ (mkResBlock nc fs θa θb).b.rl = false :=
  ⟨rfl, rfl, rfl⟩

/-- Counterexample to C2 as stated: at a concrete `AltBlock` and input, the
code's path A (activation-disabled Block applied first) yields a different
final output from the claimed path A (activation-disabled Block applied
second). -/
theorem altblock_spec_order_false :
    ¬ ((mkAltBlock 1 1 1 wCa wCb wZero).specForward 1 1 xZero
        = (mkAltBlock 1 1 1 wCa wCb wZero).forward 1 1 xZero) := by
  intro hEq
  have h2 : (mkAltBlock 1 1 1 wCa wCb wZero).specForward 1 1 xZero 0 0 0
      = (mkAltBlock 1 1 1 wCa wCb wZero).forward 1 1 xZero 0 0 0 :=
    congrFun (congrFun (congrFun hEq 0) 0) 0
  norm_num [mkAltBlock, mkBlock, AltBlock.specForward, AltBlock.forward, Block.forward,
    Block.outD, conv2d, batchNorm2d, reluT, tadd, padRead, xZero, wCa, wCb, wZero,
    Finset.sum_range_one, max_def, Finset.filter_singleton] at h2

/-- Claim C2 (amended): `AltBlock.forward` computes path A as the chained
pair with the FIRST-applied Block `b` activation-disabled and the
second-applied `a` activation-enabled, path B as the single
activation-disabled Block `c` of the other kernel size, sums both paths and
applies ReLU. -/
theorem altblock_forward_spec (nc fs1 fs2 : ℕ) (θa θb θc : Weights)
    (h w : ℕ) (x : Tensor) :
    (mkAltBlock nc fs1 fs2 θa θb θc).forward h w x
      = reluT (tadd
          ((mkBlock nc nc fs1 0 true θa).forward
            ((mkBlock nc nc fs1 0 false θb).outD h)
            ((mkBlock nc nc fs1 0 false θb).outD w)
            ((mkBlock nc nc fs1 0 false θb).forward h w x))
          ((mkBlock nc nc fs2 0 false θc).forward h w x))
    ∧ (mkAltBlock nc fs1 fs2 θa θb θc).a.rl = true
    ∧ (mkAltBlock nc fs1 fs2 θa θb θc).b.rl = false
    ∧ (mkAltBlock nc fs1 fs2 θa θb θc).c.rl = false :=
  ⟨rfl, rfl, rfl, rfl⟩

/-!
Lemmas about the training and evaluation phases.
-/

/-- The training phase records exactly one loss per batch. -/
theorem lossTrajectory_length (E : Env P G Img) (criterion : List Scores → List ℕ → ℚ) :
    ∀ (bs : List (Batch Img)) (s : OptimState P G),
      (lossTrajectory E criterion s bs).length = bs.length
  | [], _ => rfl
  | b :: bs, s => by
    simp only [lossTrajectory, List.length_cons,
      lossTrajectory_length E criterion bs (trainBatch E criterion s b).1]

/-- The training phase's accumulator ends at its starting value plus the sum
of the per-batch losses, taken in batch order. -/
theorem trainPhase_sum (E : Env P G Img) (criterion : List Scores → List ℕ → ℚ) :
    ∀ (bs : List (Batch Img)) (s : OptimState P G) (current : ℚ),
      (trainPhase E criterion s current bs).2
        = current + (lossTrajectory E criterion s bs).sum
  | [], _, current => by simp [trainPhase, lossTrajectory]
  | b :: bs, s, current => by
    simp only [trainPhase, lossTrajectory, List.sum_cons]
    rw [trainPhase_sum E criterion bs (trainBatch E criterion s b).1
      (current + (trainBatch E criterion s b).2)]
    ring

/-- The evaluation phase's correct-prediction counter ends at its starting
value plus the total number of correct predictions over all batches. -/
theorem evalPhase_acc (E : Env P G Img) (criterion : List Scores → List ℕ → ℚ) (p : P) :
    ∀ (bs : List (Batch Img)) (current : ℚ) (acc : ℕ),
      (evalPhase E criterion p current acc bs).2 = acc + correctTotal E p bs
  | [], _, acc => by simp [evalPhase, correctTotal]
  | b :: bs, current, acc => by
    simp only [evalPhase, correctTotal, List.map_cons, List.sum_cons]
    rw [evalPhase_acc E criterion p bs]
    simp only [correctTotal]
    omega

/-- `argmaxIdx v n` is a valid index when `n` is positive. -/
theorem argmaxIdx_lt (v : Scores) : ∀ n : ℕ, 0 < n → argmaxIdx v n < n
  | 0, h0 => absurd h0 (lt_irrefl 0)
  | n + 1, _ => by
    show (if v (argmaxIdx v n) < v n then n else argmaxIdx v n) < n + 1
    by_cases hc : v (argmaxIdx v n) < v n
    · rw [if_pos hc]; exact Nat.lt_succ_self n
    · rw [if_neg hc]
      rcases Nat.eq_zero_or_pos n with h0 | hp
      · subst h0; show argmaxIdx v 0 < 1; exact Nat.zero_lt_one
      · exact Nat.lt_succ_of_lt (argmaxIdx_lt v n hp)

/-- The value at `argmaxIdx v n` dominates every value at an index below `n`. -/
theorem argmaxIdx_le_max (v : Scores) :
    ∀ (n : ℕ) (j : ℕ), j < n → v j ≤ v (argmaxIdx v n)
  | 0, j, hj => absurd hj (Nat.not_lt_zero j)
  | n + 1, j, hj => by
    show v j ≤ v (if v (argmaxIdx v n) < v n then n else argmaxIdx v n)
    by_cases hc : v (argmaxIdx v n) < v n
    · rw [if_pos hc]
      rcases Nat.lt_succ_iff_lt_or_eq.mp hj with hj2 | hj2
      · exact le_of_lt (lt_of_le_of_lt (argmaxIdx_le_max v n j hj2) hc)
      · subst hj2; exact le_refl _
    · rw [if_neg hc]
      rcases Nat.lt_succ_iff_lt_or_eq.mp hj with hj2 | hj2
      · exact argmaxIdx_le_max v n j hj2
      · subst hj2; exact not_lt.mp hc

/-- Claim C4: each training batch is processed by clearing the gradient
buffer, one forward pass, one loss evaluation, one backward pass
(accumulating the batch gradient onto the cleared buffer) and one optimizer
step on the resulting gradient; the phase visits the batches once in order,
recording one loss per batch; and the epoch's recorded train loss is the
accumulated loss divided by the number of training batches. -/
theorem train_phase_spec (E : Env P G Img) (criterion : List Scores → List ℕ → ℚ)
    (trainloader testloader : List (Batch Img)) (s : OptimState P G) :
    (∀ (s0 : OptimState P G) (b : Batch Img), trainBatch E criterion s0 b
        = ({ params := E.optStep s0.params
               (E.gadd E.gzero (E.gradOf s0.params (b.map Prod.fst) (b.map Prod.snd))),
             grads := E.gadd E.gzero (E.gradOf s0.params (b.map Prod.fst) (b.map Prod.snd)) },
           criterion (E.forwardTrain s0.params (b.map Prod.fst)) (b.map Prod.snd)))
    ∧ (∀ s0 bs, (lossTrajectory E criterion s0 bs).length = bs.length)
    ∧ (∀ s0 bs, (trainPhase E criterion s0 0 bs).2 = (lossTrajectory E criterion s0 bs).sum)
    ∧ (epoch E criterion trainloader testloader s).2.1
        = (lossTrajectory E criterion s trainloader).sum / (trainloader.length : ℚ) := by
  refine ⟨fun s0 b => rfl, fun s0 bs => lossTrajectory_length E criterion bs s0, ?_, ?_⟩
  · intro s0 bs
    rw [trainPhase_sum E criterion bs s0 0, zero_add]
  · show (trainPhase E criterion s 0 trainloader).2 / (trainloader.length : ℚ) = _
    rw [trainPhase_sum E criterion trainloader s 0, zero_add]

/-- Claim C5: the evaluation phase's counter totals, over all validation
batches, the examples whose prediction — the index of the maximum
post-softmax score of the model output — equals the label; the epoch's
recorded accuracy is 100 times that count (under the parameters produced by
the epoch's training phase) divided by the total number of validation
examples; and the prediction's post-softmax score is maximal among the
class indices. -/
theorem eval_accuracy_spec (E : Env P G Img) (criterion : List Scores → List ℕ → ℚ)
    (trainloader testloader : List (Batch Img)) (s : OptimState P G) :
    (∀ p : P, (evalPhase E criterion p 0 0 testloader).2 = correctTotal E p testloader)
    ∧ (epoch E criterion trainloader testloader s).2.2.2
        = 100 * (correctTotal E (trainPhase E criterion s 0 trainloader).1.params
              testloader : ℚ) / (testsetSize testloader : ℚ)
    ∧ (∀ (out : Scores) (j : ℕ), j < E.numClasses →
        softmax E.numClasses E.e out j
          ≤ softmax E.numClasses E.e out (predOf E.numClasses E.e out)) := by
  refine ⟨fun p => by rw [evalPhase_acc E criterion p testloader 0 0, Nat.zero_add], ?_, ?_⟩
  · show 100 * ((evalPhase E criterion
        (trainPhase E criterion s 0 trainloader).1.params 0 0 testloader).2 : ℚ)
          / (testsetSize testloader : ℚ) = _
    rw [evalPhase_acc E criterion _ testloader 0 0, Nat.zero_add]
  · intro out j hj
    exact argmaxIdx_le_max (softmax E.numClasses E.e out) E.numClasses j hj

/-- Witness for C5: at a concrete environment and score row, the
post-softmax score of class 1 is at most that of the predicted class. -/
theorem eval_accuracy_spec_witness :
    softmax env0.numClasses env0.e row0 1
      ≤ softmax env0.numClasses env0.e row0 (predOf env0.numClasses env0.e row0) :=
  (eval_accuracy_spec env0 (fun _ _ => 0) ldr0 ldr0 st0).2.2 row0 1 (by norm_num [env0])

/-- The softmax probability of a valid class index is strictly positive and
at most one, provided the exponential is positive. -/
theorem softmax_pos_le_one (Cn : ℕ) (e : ℚ → ℚ) (he : ∀ x, 0 < e x)
    (v : Scores) (lab : ℕ) (hlab : lab < Cn) :
    0 < softmax Cn e v lab ∧ softmax Cn e v lab ≤ 1 := by
  have hmem : lab ∈ Finset.range Cn := Finset.mem_range.mpr hlab
  have hsum : 0 < ∑ j ∈ Finset.range Cn, e (v j) :=
    Finset.sum_pos (fun j _ => he (v j)) ⟨lab, hmem⟩
  unfold softmax
  constructor
  · exact div_pos (he (v lab)) hsum
  · rw [div_le_one hsum]
    exact Finset.single_le_sum (fun j _ => le_of_lt (he (v j))) hmem

/-- The cross-entropy loss of a batch is nonnegative when the exponential is
positive, the logarithm is nonpositive on `(0, 1]` and the labels are valid
class indices. -/
theorem crossEntropyLoss_nonneg (Cn : ℕ) (e logf : ℚ → ℚ)
    (he : ∀ x, 0 < e x) (hlog : ∀ q, 0 < q → q ≤ 1 → logf q ≤ 0)
    (outs : List Scores) (labs : List ℕ) (hlabs : ∀ lab ∈ labs, lab < Cn) :
    0 ≤ crossEntropyLoss Cn e logf outs labs := by
  unfold crossEntropyLoss
  apply div_nonneg _ (Nat.cast_nonneg _)
  apply List.sum_nonneg
  intro q hq
  rw [List.mem_map] at hq
  obtain ⟨⟨o, lab⟩, hol, rfl⟩ := hq
  have hmem : lab ∈ labs := (List.of_mem_zip hol).2
  have hb := softmax_pos_le_one Cn e he o lab (hlabs lab hmem)
  have hl := hlog _ hb.1 hb.2
  simp only [neg_nonneg]
  exact hl

/-- Every loss recorded by the training phase under the cross-entropy
criterion is nonnegative. -/
theorem lossTrajectory_nonneg (E : Env P G Img) (logf : ℚ → ℚ)
    (he : ∀ x, 0 < E.e x) (hlog : ∀ q, 0 < q → q ≤ 1 → logf q ≤ 0) :
    ∀ (bs : List (Batch Img)) (s : OptimState P G),
      (∀ b ∈ bs, ∀ ex ∈ b, ex.2 < E.numClasses) →
      ∀ q ∈ lossTrajectory E (crossEntropyLoss E.numClasses E.e logf) s bs, 0 ≤ q
  | [], _, _ => by simp [lossTrajectory]
  | b :: bs, s, hlab => by
    intro q hq
    rcases List.mem_cons.mp hq with hq | hq
    · subst hq
      apply crossEntropyLoss_nonneg E.numClasses E.e logf he hlog
      intro lab hmem
      rw [List.mem_map] at hmem
      obtain ⟨ex, hex, rfl⟩ := hmem
      exact hlab b (List.mem_cons_self b bs) ex hex
    · exact lossTrajectory_nonneg E logf he hlog bs _
        (fun b2 hb2 => hlab b2 (List.mem_cons_of_mem b hb2)) q hq

/-- In each batch, at most every example is counted as correct. -/
theorem correctInBatch_le (Cn : ℕ) (e : ℚ → ℚ) (outs : List Scores) (labs : List ℕ) :
    correctInBatch Cn e outs labs ≤ labs.length := by
  unfold correctInBatch
  calc ((outs.zip labs).filter
        (fun ol => decide (predOf Cn e ol.1 = ol.2))).length
      ≤ (outs.zip labs).length := List.length_filter_le _ _
    _ ≤ labs.length := by rw [List.length_zip]; omega

/-- The total number of correct predictions is at most the number of
validation examples. -/
theorem correctTotal_le (E : Env P G Img) (p : P) :
    ∀ bs : List (Batch Img), correctTotal E p bs ≤ testsetSize bs
  | [] => le_refl 0
  | b :: bs => by
    have h1 := correctInBatch_le E.numClasses E.e
      (E.forwardEval p (b.map Prod.fst)) (b.map Prod.snd)
    have h2 := correctTotal_le E p bs
    simp only [correctTotal, testsetSize, List.map_cons, List.sum_cons] at h1 h2 ⊢
    have h3 : (b.map Prod.snd).length = b.length := List.length_map b Prod.snd
    omega

/-- `100 * acc / total` lies in `[0, 100]` whenever `acc ≤ total`. -/
theorem accuracy_bounds (acc total : ℕ) (hle : acc ≤ total) :
    0 ≤ 100 * (acc : ℚ) / (total : ℚ) ∧ 100 * (acc : ℚ) / (total : ℚ) ≤ 100 := by
  constructor
  · positivity
  · rcases Nat.eq_zero_or_pos total with h0 | hp
    · subst h0
      have : acc = 0 := Nat.le_zero.mp hle
      subst this
      norm_num
    · have hpq : (0 : ℚ) < (total : ℚ) := by exact_mod_cast hp
      rw [div_le_iff₀ hpq]
      have : (acc : ℚ) ≤ (total : ℚ) := by exact_mod_cast hle
      linarith

/-- Every metrics row produced by one epoch under the cross-entropy
criterion has nonnegative train loss and accuracy in `[0, 100]`. -/
theorem epoch_row_bounds (E : Env P G Img) (logf : ℚ → ℚ)
    (trainloader testloader : List (Batch Img)) (s : OptimState P G)
    (he : ∀ x, 0 < E.e x) (hlog : ∀ q, 0 < q → q ≤ 1 → logf q ≤ 0)
    (hlab : ∀ b ∈ trainloader, ∀ ex ∈ b, ex.2 < E.numClasses) :
    0 ≤ (epoch E (crossEntropyLoss E.numClasses E.e logf)
          trainloader testloader s).2.1
    ∧ 0 ≤ (epoch E (crossEntropyLoss E.numClasses E.e logf)
          trainloader testloader s).2.2.2
    ∧ (epoch E (crossEntropyLoss E.numClasses E.e logf)
          trainloader testloader s).2.2.2 ≤ 100 := by
  have hacc := accuracy_bounds
    (correctTotal E (trainPhase E (crossEntropyLoss E.numClasses E.e logf) s 0
        trainloader).1.params testloader)
    (testsetSize testloader)
    (correctTotal_le E _ testloader)
  refine ⟨?_, ?_, ?_⟩
  · show 0 ≤ (trainPhase E (crossEntropyLoss E.numClasses E.e logf) s 0
        trainloader).2 / (trainloader.length : ℚ)
    apply div_nonneg _ (Nat.cast_nonneg _)
    rw [trainPhase_sum E _ trainloader s 0, zero_add]
    exact List.sum_nonneg (lossTrajectory_nonneg E logf he hlog trainloader s hlab)
  · show 0 ≤ 100 * ((evalPhase E (crossEntropyLoss E.numClasses E.e logf)
        (trainPhase E (crossEntropyLoss E.numClasses E.e logf) s 0
          trainloader).1.params 0 0 testloader).2 : ℚ) / (testsetSize testloader : ℚ)
    rw [evalPhase_acc E _ _ testloader 0 0, Nat.zero_add]
    exact hacc.1
  · show 100 * ((evalPhase E (crossEntropyLoss E.numClasses E.e logf)
        (trainPhase E (crossEntropyLoss E.numClasses E.e logf) s 0
          trainloader).1.params 0 0 testloader).2 : ℚ) / (testsetSize testloader : ℚ) ≤ 100
    rw [evalPhase_acc E _ _ testloader 0 0, Nat.zero_add]
    exact hacc.2

/-- Claim C6: every metrics row recorded by `train_loop` run with the
cross-entropy criterion has a mean training loss that is at least 0 and an
accuracy in the closed interval `[0, 100]`.  `he` and `hlog` model the
framework's exponential and logarithm (the exponential is positive; the
logarithm is nonpositive on `(0, 1]`); `hlab` says the training labels are
valid class indices. -/
theorem metrics_bounds_spec (E : Env P G Img) (logf : ℚ → ℚ)
    (trainloader testloader : List (Batch Img)) (s : OptimState P G) (epochs : ℕ)
    (he : ∀ x, 0 < E.e x)
    (hlog : ∀ q, 0 < q → q ≤ 1 → logf q ≤ 0)
    (hlab : ∀ b ∈ trainloader, ∀ ex ∈ b, ex.2 < E.numClasses) :
    ∀ m ∈ train_loop E (crossEntropyLoss E.numClasses E.e logf)
        trainloader testloader s epochs,
      0 ≤ m.1 ∧ 0 ≤ m.2.2 ∧ m.2.2 ≤ 100 := by
  induction epochs generalizing s with
  | zero => intro m hm; simp [train_loop] at hm
  | succ n ih =>
    intro m hm
    simp only [train_loop] at hm
    rcases List.mem_cons.mp hm with hm | hm
    · subst hm
      exact epoch_row_bounds E logf trainloader testloader s he hlog hlab
    · exact ih _ m hm

/-- Witness for C6: the single metrics row of a one-epoch run at a concrete
environment and loaders satisfies the bounds. -/
theorem metrics_bounds_spec_witness :
    0 ≤ (epoch env0 (crossEntropyLoss env0.numClasses env0.e (fun _ => 0))
          ldr0 ldr0 st0).2.1
    ∧ 0 ≤ (epoch env0 (crossEntropyLoss env0.numClasses env0.e (fun _ => 0))
          ldr0 ldr0 st0).2.2.2
    ∧ (epoch env0 (crossEntropyLoss env0.numClasses env0.e (fun _ => 0))
          ldr0 ldr0 st0).2.2.2 ≤ 100 :=
  metrics_bounds_spec env0 (fun _ => 0) ldr0 ldr0 st0 1
    (fun _ => one_pos) (fun _ _ _ => le_refl 0) (by decide)
    (epoch env0 (crossEntropyLoss env0.numClasses env0.e (fun _ => 0)) ldr0 ldr0 st0).2
    (by simp [train_loop])

/-- Claim C7: the Plain-deep topology `net0` maps any batch of shape
`[n, 3, 32, 32]` through all ten Blocks, the pooling, the flatten and the
linear head without a shape error, to an output of shape `[n, 10]`. -/
theorem net0_shape_spec (n : ℕ) : net0Shape [n, 3, 32, 32] = some [n, 10] := rfl

/-- Evaluation of a Block's shape action on a well-formed 4-dimensional
shape whose channel count matches and whose padded extent covers the kernel. -/
theorem blockShape_eval (cin cout fs p n c h w : ℕ) (hc : c = cin)
    (hh : fs ≤ h + 2 * p) (hw : fs ≤ w + 2 * p) :
    blockShape cin cout fs p [n, c, h, w]
      = some [n, cout, h + 2 * p + 1 - fs, w + 2 * p + 1 - fs] := by
  subst hc
  show ((if c = c ∧ fs ≤ h + 2 * p ∧ fs ≤ w + 2 * p then
      some [n, cout, h + 2 * p + 1 - fs, w + 2 * p + 1 - fs]
    else none) : Option (List ℕ)).bind (batchNorm2dShape cout) = _
  rw [if_pos ⟨rfl, hh, hw⟩]
  show ((if cout = cout then some [n, cout, h + 2 * p + 1 - fs, w + 2 * p + 1 - fs]
    else none) : Option (List ℕ)) = _
  rw [if_pos rfl]

/-- Claim C10: an `AltBlock(nc, 3, 5)` (the only form `net3` uses) has zero
padding on all three internal Blocks, and on any input shape with both
spatial extents at least 5 both paths produce the shape with each spatial
extent reduced by exactly 4, so the element-wise sum of the two paths is
well defined and the whole unit maps the shape to that common shape. -/
theorem altblock_shape_safe (nc n h w : ℕ) (θa θb θc : Weights)
    (hh : 5 ≤ h) (hw : 5 ≤ w) :
    ((mkAltBlock nc 3 5 θa θb θc).a.p = 0 ∧ (mkAltBlock nc 3 5 θa θb θc).b.p = 0
      ∧ (mkAltBlock nc 3 5 θa θb θc).c.p = 0)
    ∧ (blockShape nc nc 3 0 [n, nc, h, w]).bind (blockShape nc nc 3 0)
        = some [n, nc, h - 4, w - 4]
    ∧ blockShape nc nc 5 0 [n, nc, h, w] = some [n, nc, h - 4, w - 4]
    ∧ altBlockShape nc 3 5 [n, nc, h, w] = some [n, nc, h - 4, w - 4] := by
  have e2h : h + 2 * 0 + 1 - 3 = h - 2 := by omega
  have e2w : w + 2 * 0 + 1 - 3 = w - 2 := by omega
  have hA1 : blockShape nc nc 3 0 [n, nc, h, w] = some [n, nc, h - 2, w - 2] := by
    rw [blockShape_eval nc nc 3 0 n nc h w rfl (by omega) (by omega), e2h, e2w]
  have e4h : h - 2 + 2 * 0 + 1 - 3 = h - 4 := by omega
  have e4w : w - 2 + 2 * 0 + 1 - 3 = w - 4 := by omega
  have hA : (blockShape nc nc 3 0 [n, nc, h, w]).bind (blockShape nc nc 3 0)
      = some [n, nc, h - 4, w - 4] := by
    rw [hA1]
    show blockShape nc nc 3 0 [n, nc, h - 2, w - 2] = _
    rw [blockShape_eval nc nc 3 0 n nc (h - 2) (w - 2) rfl (by omega) (by omega), e4h, e4w]
  have e5h : h + 2 * 0 + 1 - 5 = h - 4 := by omega
  have e5w : w + 2 * 0 + 1 - 5 = w - 4 := by omega
  have hB : blockShape nc nc 5 0 [n, nc, h, w] = some [n, nc, h - 4, w - 4] := by
    rw [blockShape_eval nc nc 5 0 n nc h w rfl (by omega) (by omega), e5h, e5w]
  refine ⟨⟨rfl, rfl, rfl⟩, hA, hB, ?_⟩
  unfold altBlockShape
  rw [hA, hB]
  show addShape [n, nc, h - 4, w - 4] [n, nc, h - 4, w - 4] = _
  unfold addShape
  rw [if_pos rfl]

/-- Witness for C10 at the concrete instantiation `AltBlock(16, 3, 5)` on a
CIFAR-sized shape `[1, 16, 32, 32]`. -/
theorem altblock_shape_safe_witness :
    ((mkAltBlock 16 3 5 wZero wZero wZero).a.p = 0
      ∧ (mkAltBlock 16 3 5 wZero wZero wZero).b.p = 0
      ∧ (mkAltBlock 16 3 5 wZero wZero wZero).c.p = 0)
    ∧ (blockShape 16 16 3 0 [1, 16, 32, 32]).bind (blockShape 16 16 3 0)
        = some [1, 16, 28, 28]
    ∧ blockShape 16 16 5 0 [1, 16, 32, 32] = some [1, 16, 28, 28]
    ∧ altBlockShape 16 3 5 [1, 16, 32, 32] = some [1, 16, 28, 28] :=
  altblock_shape_safe 16 1 32 32 wZero wZero wZero (by omega) (by omega)
